import Mathlib

/-!
A verification development for the single-file to-do list manager
(`todo.py`).  The program keeps an in-memory list of task records,
validates free-text input, assigns identifiers, and persists the whole
collection to a JSON file after every accepted mutation.

The embedding below translates the data model and the operations of the
source directly:

* a Python task dict `{"taskid": .., "taskname": .., "description": ..,
  "status": ..}` becomes the structure `Task` (status `None` becomes
  `Option.none`);
* interactive input that may fail to parse as an integer becomes an
  `Option Int` argument (`none` models a `ValueError` on `int(...)`);
* Python `str.strip` becomes `pystrip`;
* the backing file becomes a `FileState`: missing, unparsable, or holding
  a parsed JSON document.  `json.dump` followed by `json.load` is the
  identity on JSON-representable values, so serialisation is modelled at
  the level of JSON values rather than character streams.
-/

namespace Todo

/-- Python `str.strip()`: drop leading and trailing whitespace.  Modelled
on the character list so that it is structurally recursive. -/
def pystrip (s : String) : String :=
  String.mk (((s.data.dropWhile Char.isWhitespace).reverse.dropWhile Char.isWhitespace).reverse)

/-- The status codes of the frozen dataclass `TaskStatus` in todo.py. -/
def TaskStatus.PENDING : Int := 0

/-- `TaskStatus.IN_PROGRESS = 1` in todo.py. -/
def TaskStatus.IN_PROGRESS : Int := 1

/-- `TaskStatus.COMPLETED = 2` in todo.py. -/
def TaskStatus.COMPLETED : Int := 2

/-- One task record, as the dicts built in `TaskManager.add_task`:
`status` is `none` for Python `None` (a task not yet assigned a status). -/
structure Task where
  taskid : Int
  taskname : String
  description : String
  status : Option Int
deriving DecidableEq, Repr

/-- A character accepted by the task-name pattern `[A-Za-z0-9 ]` of
`TaskValidator.validate_input`. -/
def validNameChar (c : Char) : Bool :=
  c.isAlphanum || c == ' '

/-- One pass of `TaskValidator.validate_input` (todo.py lines 55-71): the
loop re-prompts on bad input, so a pass either accepts the stripped value
(`some`) or rejects it (`none`).  The task-name branch is the regex
`^[A-Za-z0-9 ]{1,20}$`; the description branch is `re.search("[A-Za-z0-9]")`. -/
def TaskValidator.validate_input (raw : String) (is_taskname : Bool) (is_description : Bool) :
    Option String :=
  let value := pystrip raw
  if value = "" then none
  else if is_taskname && !(value.length ≤ 20 && value.data.all validNameChar) then none
  else if is_description && !(value.data.any Char.isAlphanum) then none
  else some value

/-- The validator as the spec's `validate_name`: `validate_input` with
`is_taskname=True`. -/
def TaskValidator.validate_name (raw : String) : Option String :=
  TaskValidator.validate_input raw true false

/-- The validator as the spec's `validate_description`: `validate_input`
with `is_description=True`. -/
def TaskValidator.validate_description (raw : String) : Option String :=
  TaskValidator.validate_input raw false true

/-- JSON values as Python's json module produces them for this program
(task fields are ints, strings and null; documents are arrays of objects). -/
inductive Json where
  | null : Json
  | bool (b : Bool) : Json
  | num (n : Int) : Json
  | str (s : String) : Json
  | arr (elems : List Json) : Json
  | obj (fields : List (String × Json)) : Json

/-- The JSON object `json.dump` writes for one task dict. -/
def encodeTask (t : Task) : Json :=
  Json.obj [("taskid", Json.num t.taskid),
            ("taskname", Json.str t.taskname),
            ("description", Json.str t.description),
            ("status", match t.status with | none => Json.null | some n => Json.num n)]

/-- The backing file: absent, present but not parsable as JSON
(`json.JSONDecodeError`/`ValueError`), or holding a parsed document. -/
inductive FileState where
  | missing : FileState
  | corrupt : FileState
  | content (doc : Json) : FileState

/-- `FileHandler.load_tasks` (todo.py lines 36-46): a missing file or a
parse failure yields `[]`; a parsed document is returned as-is when it is
a list (`isinstance(tasks, list)`) and replaced by `[]` otherwise. -/
def FileHandler.load_tasks : FileState → List Json
  | FileState.missing => []
  | FileState.corrupt => []
  | FileState.content (Json.arr tasks) => tasks
  | FileState.content _ => []

/-- `FileHandler.save_tasks` (todo.py lines 48-52): overwrite the file
with the serialised task list.  `json.dump` then `json.load` is the
identity on JSON values, so the file afterwards holds that document. -/
def FileHandler.save_tasks (tasks : List Json) : FileState :=
  FileState.content (Json.arr tasks)

/-- Python `max(xs, default=d)`: `d` only when the list is empty. -/
def pymax (l : List Int) (d : Int) : Int :=
  match l with
  | [] => d
  | x :: xs => xs.foldl max x

/-- The in-memory manager: `self.tasks` and the state of the file at
`self.filename`. -/
structure TaskManager where
  tasks : List Task
  file : FileState

/-- `TaskManager.save_tasks` (todo.py lines 79-80): write the whole
collection to the backing file. -/
def TaskManager.save_tasks (m : TaskManager) : TaskManager :=
  { m with file := FileHandler.save_tasks (m.tasks.map encodeTask) }

/-- `TaskManager.get_next_task_id` (todo.py lines 82-83):
`max([task["taskid"] for task in self.tasks], default=0) + 1`. -/
def TaskManager.get_next_task_id (tasks : List Task) : Int :=
  pymax (tasks.map Task.taskid) 0 + 1

/-- `TaskManager.add_task` (todo.py lines 85-97) after its two
`validate_input` calls have produced `taskname` and `description`:
append a record with the next id and `status: None`, then save. -/
def TaskManager.add_task (m : TaskManager) (taskname description : String) : TaskManager :=
  let task_id := TaskManager.get_next_task_id m.tasks
  TaskManager.save_tasks
    { m with tasks := m.tasks ++ [⟨task_id, taskname, description, none⟩] }

/-- `next((t for t in self.tasks if t["taskid"] == task_id), None)`. -/
def findTask (tasks : List Task) (task_id : Int) : Option Task :=
  tasks.find? (fun t => t.taskid == task_id)

/-- In-place mutation of the dict `next(...)` returned: rewrite the first
task whose id matches.  (The update functions used below never change
`taskid`, so successive calls hit the same position.) -/
def updateFirst (task_id : Int) (f : Task → Task) : List Task → List Task
  | [] => []
  | t :: ts => if t.taskid == task_id then f t :: ts else t :: updateFirst task_id f ts

/-- How a call of `TaskManager.update_task` ends, one constructor per
`return`/`print` path of todo.py lines 150-187. -/
inductive UpdateResult where
  | noTasks : UpdateResult
  | invalidId : UpdateResult
  | notFound : UpdateResult
  | invalidStatusInput : UpdateResult
  | invalidStatusCode : UpdateResult
  | updated : UpdateResult
deriving DecidableEq, Repr

/-- `TaskManager.update_task` (todo.py lines 150-187).  `task_id_input` is
`int(input(..))` (`none` for a `ValueError`); `raw_taskname` and
`raw_description` are the raw replies (stripped inside, empty keeps the
field); `status_input` is the `int(input(..))` for the status prompt.
The name and description are written into the found task before the
status is read; `save_tasks` runs only when the status code is 0, 1 or 2. -/
def TaskManager.update_task (m : TaskManager) (task_id_input : Option Int)
    (raw_taskname raw_description : String) (status_input : Option Int) :
    TaskManager × UpdateResult :=
  if m.tasks.isEmpty then (m, UpdateResult.noTasks)
  else
    match task_id_input with
    | none => (m, UpdateResult.invalidId)
    | some task_id =>
      match findTask m.tasks task_id with
      | none => (m, UpdateResult.notFound)
      | some _ =>
        let new_taskname := pystrip raw_taskname
        let tasks1 := if new_taskname = "" then m.tasks
          else updateFirst task_id (fun t => { t with taskname := new_taskname }) m.tasks
        let new_description := pystrip raw_description
        let tasks2 := if new_description = "" then tasks1
          else updateFirst task_id (fun t => { t with description := new_description }) tasks1
        match status_input with
        | none => ({ m with tasks := tasks2 }, UpdateResult.invalidStatusInput)
        | some new_status =>
          if new_status == TaskStatus.PENDING || new_status == TaskStatus.IN_PROGRESS
              || new_status == TaskStatus.COMPLETED then
            (TaskManager.save_tasks
              { m with tasks :=
                  updateFirst task_id (fun t => { t with status := some new_status }) tasks2 },
             UpdateResult.updated)
          else ({ m with tasks := tasks2 }, UpdateResult.invalidStatusCode)

/-- How a call of `TaskManager.delete_task` ends, one constructor per
path of todo.py lines 189-211. -/
inductive DeleteResult where
  | noTasks : DeleteResult
  | invalidId : DeleteResult
  | notFound : DeleteResult
  | notCompleted : DeleteResult
  | deleted : DeleteResult
deriving DecidableEq, Repr

/-- `TaskManager.delete_task` (todo.py lines 189-211): find the task by
id, refuse unless its status is `COMPLETED`, else `self.tasks.remove(task)`
(remove the first equal element) and save. -/
def TaskManager.delete_task (m : TaskManager) (task_id_input : Option Int) :
    TaskManager × DeleteResult :=
  if m.tasks.isEmpty then (m, DeleteResult.noTasks)
  else
    match task_id_input with
    | none => (m, DeleteResult.invalidId)
    | some task_id =>
      match findTask m.tasks task_id with
      | none => (m, DeleteResult.notFound)
      | some task =>
        if task.status == some TaskStatus.COMPLETED then
          (TaskManager.save_tasks { m with tasks := m.tasks.erase task },
           DeleteResult.deleted)
        else (m, DeleteResult.notCompleted)

/-- The manager at process start over an absent data file. -/
def emptyManager : TaskManager :=
  { tasks := [], file := FileState.missing }

/-- A run of `add_task` calls, each with its validated name and
description. -/
def addSeq (m : TaskManager) : List (String × String) → TaskManager
  | [] => m
  | (n, d) :: rest => addSeq (m.add_task n d) rest

/-- Modelled from the spec: the backing-store record format of spec §6
(fields `taskid` integer, `taskname` text, `description` text, `status`
code 0/1/2 or null).  The code performs no such per-record check; this
definition only states what "task-shaped" means. -/
def isTaskShaped : Json → Bool
  | Json.obj fields =>
    (match (fields.find? (fun p => p.1 == "taskid")).map Prod.snd with
      | some (Json.num _) => true
      | _ => false) &&
    (match (fields.find? (fun p => p.1 == "taskname")).map Prod.snd with
      | some (Json.str _) => true
      | _ => false) &&
    (match (fields.find? (fun p => p.1 == "description")).map Prod.snd with
      | some (Json.str _) => true
      | _ => false) &&
    (match (fields.find? (fun p => p.1 == "status")).map Prod.snd with
      | some Json.null => true
      | some (Json.num n) => n == 0 || n == 1 || n == 2
      | none => true
      | _ => false)
  | _ => false

/-- The ids `1, 2, ..., k`, as `add_task` assigns them from an empty store. -/
def seqIds (k : Nat) : List Int :=
  (List.range k).map (fun i : Nat => (i : Int) + 1)

/-- The name/description phase of `update_task` (todo.py lines 166-172),
as one function of the found task's id: write the stripped new name into
the found task when non-empty, then likewise the stripped new
description.  `update_task` is definitionally this chain of edits. -/
def applyFieldEdits (task_id : Int) (raw_taskname raw_description : String)
    (tasks : List Task) : List Task :=
  let new_taskname := pystrip raw_taskname
  let tasks1 := if new_taskname = "" then tasks
    else updateFirst task_id (fun t => { t with taskname := new_taskname }) tasks
  let new_description := pystrip raw_description
  if new_description = "" then tasks1
  else updateFirst task_id (fun t => { t with description := new_description }) tasks1

/-! ## Lemmas about `pymax` -/

theorem left_le_foldl_max : ∀ (xs : List Int) (a : Int), a ≤ xs.foldl max a
  | [], a => le_refl a
  | x :: xs, a => le_trans (le_max_left a x) (left_le_foldl_max xs (max a x))

theorem mem_le_foldl_max : ∀ (xs : List Int) (a x : Int), x ∈ xs → x ≤ xs.foldl max a
  | [], _, _, h => absurd h (List.not_mem_nil _)
  | y :: ys, a, x, h => by
    rcases List.mem_cons.mp h with rfl | h2
    · exact le_trans (le_max_right a x) (left_le_foldl_max ys (max a x))
    · exact mem_le_foldl_max ys (max a y) x h2

theorem foldl_max_cases : ∀ (xs : List Int) (a : Int), xs.foldl max a = a ∨ xs.foldl max a ∈ xs
  | [], _ => Or.inl rfl
  | y :: ys, a => by
    rw [List.foldl_cons]
    rcases foldl_max_cases ys (max a y) with h | h
    · rcases max_choice a y with h2 | h2
      · exact Or.inl (by rw [h, h2])
      · exact Or.inr (by rw [h, h2]; exact List.mem_cons_self _ _)
    · exact Or.inr (List.mem_cons_of_mem _ h)

theorem le_pymax {l : List Int} {x : Int} (hx : x ∈ l) (d : Int) : x ≤ pymax l d := by
  cases l with
  | nil => exact absurd hx (List.not_mem_nil _)
  | cons y ys =>
    rcases List.mem_cons.mp hx with rfl | h2
    · exact left_le_foldl_max ys x
    · exact mem_le_foldl_max ys y x h2

theorem pymax_mem {l : List Int} (h : l ≠ []) (d : Int) : pymax l d ∈ l := by
  cases l with
  | nil => exact absurd rfl h
  | cons y ys =>
    show ys.foldl max y ∈ y :: ys
    rcases foldl_max_cases ys y with h2 | h2
    · rw [h2]; exact List.mem_cons_self _ _
    · exact List.mem_cons_of_mem _ h2

theorem pymax_append_singleton (l : List Int) (v d : Int) :
    pymax (l ++ [v]) d = if l = [] then v else max (pymax l d) v := by
  cases l with
  | nil => simp [pymax]
  | cons y ys => simp [pymax, List.foldl_append]

theorem pymax_seqIds : ∀ k : Nat, pymax (seqIds k) 0 = (k : Int)
  | 0 => rfl
  | k + 1 => by
    have h : seqIds (k + 1) = seqIds k ++ [(k : Int) + 1] := by
      simp [seqIds, List.range_succ]
    rw [h, pymax_append_singleton]
    by_cases hk : seqIds k = []
    · have hk0 : k = 0 := by
        have hlen : (seqIds k).length = k := by
          rw [seqIds, List.length_map, List.length_range]
        rw [hk] at hlen
        exact hlen.symm
      subst hk0
      simp [hk]
    · rw [if_neg hk, pymax_seqIds k, max_eq_right (by linarith)]
      push_cast
      ring

/-! ## Lemmas about `add_task` sequences -/

theorem add_task_tasks (m : TaskManager) (n d : String) :
    (m.add_task n d).tasks =
      m.tasks ++ [⟨TaskManager.get_next_task_id m.tasks, n, d, none⟩] := rfl

theorem addSeq_ids (inputs : List (String × String)) :
    ∀ (m : TaskManager) (k : Nat), m.tasks.map Task.taskid = seqIds k →
      (addSeq m inputs).tasks.map Task.taskid = seqIds (k + inputs.length) := by
  induction inputs with
  | nil => intro m k h; simpa using h
  | cons p rest ih =>
    intro m k h
    obtain ⟨n, d⟩ := p
    show (addSeq (m.add_task n d) rest).tasks.map Task.taskid = _
    have hstep : (m.add_task n d).tasks.map Task.taskid = seqIds (k + 1) := by
      rw [add_task_tasks, List.map_append, h]
      have hnext : TaskManager.get_next_task_id m.tasks = (k : Int) + 1 := by
        rw [TaskManager.get_next_task_id, h, pymax_seqIds]
      have hseq : seqIds (k + 1) = seqIds k ++ [(k : Int) + 1] := by
        simp [seqIds, List.range_succ]
      rw [hseq]
      simp [hnext]
    have := ih (m.add_task n d) (k + 1) hstep
    rw [this]
    have harith : k + 1 + rest.length = k + (rest.length + 1) := by omega
    rw [harith]
    rfl

/-- C2: ids assigned by a run of `add_task` from an empty store are the
strictly increasing integers `1, 2, ...`; in general `get_next_task_id`
is one more than some existing id that bounds every other id (the
maximum), and is `1` on an empty store, so every existing id is strictly
below the next id. -/
theorem add_ids_strictly_increasing :
    (∀ inputs : List (String × String),
        (addSeq emptyManager inputs).tasks.map Task.taskid = seqIds inputs.length)
    ∧ (∀ tasks : List Task, ∀ t ∈ tasks, t.taskid < TaskManager.get_next_task_id tasks)
    ∧ (∀ tasks : List Task, tasks ≠ [] →
        ∃ t ∈ tasks, TaskManager.get_next_task_id tasks = t.taskid + 1 ∧
          ∀ u ∈ tasks, u.taskid ≤ t.taskid)
    ∧ TaskManager.get_next_task_id [] = 1 := by
  refine ⟨?_, ?_, ?_, rfl⟩
  · intro inputs
    simpa using addSeq_ids inputs emptyManager 0 rfl
  · intro tasks t ht
    have h := le_pymax (List.mem_map_of_mem Task.taskid ht) 0
    rw [TaskManager.get_next_task_id]
    omega
  · intro tasks hne
    have hmapne : tasks.map Task.taskid ≠ [] := by
      simpa using hne
    obtain ⟨t, ht, hid⟩ := List.mem_map.mp (pymax_mem hmapne 0)
    refine ⟨t, ht, ?_, ?_⟩
    · rw [TaskManager.get_next_task_id, hid]
    · intro u hu
      have h := le_pymax (List.mem_map_of_mem Task.taskid hu) 0
      omega

/-- C1: when the task found for an id is not `Completed` (status code 2),
`delete_task` reports the failure and returns the manager unchanged:
same task list (no task removed, no field or order changed) and same
file state. -/
theorem delete_not_completed_fails (m : TaskManager) (task_id : Int) (t : Task)
    (hfind : findTask m.tasks task_id = some t)
    (hst : t.status ≠ some TaskStatus.COMPLETED) :
    m.delete_task (some task_id) = (m, DeleteResult.notCompleted) := by
  have hne : m.tasks.isEmpty = false := by
    cases hts : m.tasks with
    | nil => rw [hts] at hfind; exact Option.noConfusion hfind
    | cons a as => rfl
  have hb : (t.status == some TaskStatus.COMPLETED) = false :=
    beq_eq_false_iff_ne.mpr hst
  simp [TaskManager.delete_task, hne, hfind, hb]

/-- Witness for C1 at a concrete store: one task with id 1 and no status. -/
theorem delete_not_completed_fails_witness :
    TaskManager.delete_task ⟨[⟨1, "a", "b", none⟩], FileState.missing⟩ (some 1) =
      (⟨[⟨1, "a", "b", none⟩], FileState.missing⟩, DeleteResult.notCompleted) :=
  delete_not_completed_fails ⟨[⟨1, "a", "b", none⟩], FileState.missing⟩ 1
    ⟨1, "a", "b", none⟩ rfl (by decide)

/-- C8: saving a task list and loading it back yields the same list, and
the serialised form of a task determines the task field by field
(`encodeTask` is injective), so the round trip preserves every field and
the order. -/
theorem save_load_roundtrip :
    (∀ tasks : List Json, FileHandler.load_tasks (FileHandler.save_tasks tasks) = tasks)
    ∧ (∀ t u : Task, encodeTask t = encodeTask u → t = u) := by
  refine ⟨fun tasks => rfl, ?_⟩
  intro t u h
  obtain ⟨i, n, d, s⟩ := t
  obtain ⟨i', n', d', s'⟩ := u
  cases s <;> cases s' <;> simp_all [encodeTask]

/-- C10: `add_task` performs no duplicate-name check: for any store, any
validated name and description, even when an existing task has a
case-insensitively equal name, the call succeeds and appends the new
task (next id, status unassigned), leaving every prior task in place. -/
theorem add_no_duplicate_check (m : TaskManager) (raw_name raw_desc name desc : String)
    (hn : TaskValidator.validate_name raw_name = some name)
    (hd : TaskValidator.validate_description raw_desc = some desc)
    (hdup : ∃ t ∈ m.tasks, t.taskname.toLower = name.toLower) :
    (m.add_task name desc).tasks =
      m.tasks ++ [⟨TaskManager.get_next_task_id m.tasks, name, desc, none⟩] := rfl

/-- Witness for C10: adding "Task 1" when a task named "Task 1" already
exists still appends. -/
theorem add_no_duplicate_check_witness :
    (TaskManager.add_task ⟨[⟨1, "Task 1", "d1", none⟩], FileState.missing⟩
        "Task 1" "d1").tasks =
      [⟨1, "Task 1", "d1", none⟩] ++
        [⟨TaskManager.get_next_task_id [⟨1, "Task 1", "d1", none⟩], "Task 1", "d1", none⟩] :=
  add_no_duplicate_check ⟨[⟨1, "Task 1", "d1", none⟩], FileState.missing⟩
    "Task 1" "d1" "Task 1" "d1" (by decide) (by decide)
    ⟨⟨1, "Task 1", "d1", none⟩, by simp, rfl⟩

theorem validNameChar_iff (c : Char) :
    validNameChar c = true ↔ (c.isAlpha = true ∨ c.isDigit = true ∨ c = ' ') := by
  simp [validNameChar, Char.isAlphanum, Bool.or_eq_true, beq_iff_eq, or_assoc]

theorem validate_name_characterization :
    (∀ raw out : String, TaskValidator.validate_name raw = some out ↔
      (out = pystrip raw ∧ pystrip raw ≠ "" ∧ (pystrip raw).length ≤ 20 ∧
        ∀ c ∈ (pystrip raw).data, (c.isAlpha = true ∨ c.isDigit = true ∨ c = ' ')))
    ∧ TaskValidator.validate_name "" = none
    ∧ TaskValidator.validate_name "abcdefghijklmnopqrstu" = none
    ∧ TaskValidator.validate_name "abc!" = none
    ∧ TaskValidator.validate_name "Task 1" = some "Task 1" := by
  refine ⟨?_, rfl, by decide, rfl, by decide⟩
  intro raw out
  simp only [TaskValidator.validate_name, TaskValidator.validate_input]
  by_cases h0 : pystrip raw = ""
  · simp [h0]
  · rw [if_neg h0]
    have hiff : ((decide ((pystrip raw).length ≤ 20) && (pystrip raw).data.all validNameChar) = true) ↔
        ((pystrip raw).length ≤ 20 ∧ ∀ c ∈ (pystrip raw).data, (c.isAlpha = true ∨ c.isDigit = true ∨ c = ' ')) := by
      rw [Bool.and_eq_true, decide_eq_true_iff, List.all_eq_true]
      constructor
      · rintro ⟨h1, h2⟩
        exact ⟨h1, fun c hc => (validNameChar_iff c).mp (h2 c hc)⟩
      · rintro ⟨h1, h2⟩
        exact ⟨h1, fun c hc => (validNameChar_iff c).mpr (h2 c hc)⟩
    by_cases hb : (decide ((pystrip raw).length ≤ 20) && (pystrip raw).data.all validNameChar) = true
    · rw [hb]
      simp only [Bool.true_and, Bool.not_true, Bool.false_and, Bool.false_eq_true, if_false]
      constructor
      · intro h
        injection h with h
        obtain ⟨h1, h2⟩ := hiff.mp hb
        exact ⟨h.symm, h0, h1, h2⟩
      · rintro ⟨rfl, h1, h2, h3⟩
        rfl
    · rw [Bool.not_eq_true] at hb
      rw [hb]
      simp only [Bool.true_and, Bool.not_false, if_true]
      constructor
      · intro h
        exact Option.noConfusion h
      · rintro ⟨rfl, h1, h2, h3⟩
        have hf := hiff.mpr ⟨h2, h3⟩
        rw [hb] at hf
        exact (Bool.false_ne_true hf).elim

/-- C7 counterexample: a well-formed JSON file holding the list
`[1, 2, 3]` is not a list of task-shaped records, yet `load_tasks`
returns it as-is instead of an empty sequence. -/
theorem load_returns_nontask_records_cex :
    FileHandler.load_tasks (FileState.content (Json.arr [Json.num 1, Json.num 2, Json.num 3]))
        = [Json.num 1, Json.num 2, Json.num 3]
    ∧ [Json.num 1, Json.num 2, Json.num 3] ≠ ([] : List Json)
    ∧ isTaskShaped (Json.num 1) = false :=
  ⟨rfl, by simp, rfl⟩

/-- C7 amended: `load_tasks` is total (it never raises: every file state
is mapped to a list), a missing or unparsable file yields `[]`, and a
parsed document is returned exactly when it is a JSON list — whatever
its elements are — and replaced by `[]` otherwise; the shape of the
records is not checked. -/
theorem load_missing_or_malformed_yields_empty :
    FileHandler.load_tasks FileState.missing = []
    ∧ FileHandler.load_tasks FileState.corrupt = []
    ∧ (∀ doc : Json, FileHandler.load_tasks (FileState.content doc) = [] ∨
        ∃ elems, doc = Json.arr elems ∧
          FileHandler.load_tasks (FileState.content doc) = elems) := by
  refine ⟨rfl, rfl, ?_⟩
  intro doc
  cases doc with
  | arr elems => exact Or.inr ⟨elems, rfl, rfl⟩
  | null => exact Or.inl rfl
  | bool b => exact Or.inl rfl
  | num n => exact Or.inl rfl
  | str s => exact Or.inl rfl
  | obj fields => exact Or.inl rfl

/-- C3 counterexample: add two tasks (ids 1, 2), mark task 2 Completed,
delete it, add again — the new task is assigned id 2, so the deleted id
is reused. -/
theorem deleted_id_reused_cex :
    ((emptyManager.add_task "a" "aa").add_task "b" "bb").tasks.map Task.taskid = [1, 2]
    ∧ (((((emptyManager.add_task "a" "aa").add_task "b" "bb").update_task
          (some 2) "" "" (some 2)).1.delete_task (some 2)).1.tasks.map Task.taskid = [1])
    ∧ ((((((emptyManager.add_task "a" "aa").add_task "b" "bb").update_task
          (some 2) "" "" (some 2)).1.delete_task (some 2)).1.add_task "c" "cc").tasks.map
            Task.taskid = [1, 2]) := by
  decide

/-- C3 amended: the id `add_task` assigns is strictly greater than every
id in the store at that moment, so a deleted id N can only be reassigned
once no task with id at least N remains; while any such task remains, N
is not reused (the new task list beyond the old one carries only the
fresh id, which exceeds N). -/
theorem new_id_exceeds_remaining (m : TaskManager) (name desc : String) (N : Int)
    (h : ∃ t ∈ m.tasks, N ≤ t.taskid) :
    N < TaskManager.get_next_task_id m.tasks
    ∧ ∀ u ∈ (m.add_task name desc).tasks, u.taskid = N → u ∈ m.tasks := by
  obtain ⟨t, ht, hNt⟩ := h
  have hle := le_pymax (List.mem_map_of_mem Task.taskid ht) 0
  have hlt : N < TaskManager.get_next_task_id m.tasks := by
    rw [TaskManager.get_next_task_id]
    omega
  refine ⟨hlt, ?_⟩
  intro u hu hN
  rw [add_task_tasks] at hu
  rcases List.mem_append.mp hu with h1 | h1
  · exact h1
  · exfalso
    have hu2 : u = (⟨TaskManager.get_next_task_id m.tasks, name, desc, none⟩ : Task) := by
      simpa using h1
    rw [hu2] at hN
    simp only at hN
    omega

/-- Witness for the amended C3: a store holding id 3; any N at most 3 (here
3 itself) is strictly below the next id and not assigned by the add. -/
theorem new_id_exceeds_remaining_witness :
    (3 : Int) < TaskManager.get_next_task_id [⟨3, "a", "b", none⟩]
    ∧ ∀ u ∈ (TaskManager.add_task ⟨[⟨3, "a", "b", none⟩], FileState.missing⟩ "c" "d").tasks,
        u.taskid = 3 → u ∈ [(⟨3, "a", "b", none⟩ : Task)] :=
  new_id_exceeds_remaining ⟨[⟨3, "a", "b", none⟩], FileState.missing⟩ "c" "d" 3
    ⟨⟨3, "a", "b", none⟩, by simp, by simp⟩

/-! ## Lemmas about `findTask` and `List.erase` -/

theorem findTask_split {tasks : List Task} {task_id : Int} {t : Task}
    (h : findTask tasks task_id = some t) :
    t.taskid = task_id ∧
      ∃ l1 l2, tasks = l1 ++ t :: l2 ∧ ∀ u ∈ l1, u.taskid ≠ task_id := by
  induction tasks with
  | nil => exact absurd h (by simp [findTask])
  | cons a as ih =>
    by_cases ha : (a.taskid == task_id) = true
    · rw [findTask, List.find?_cons_of_pos (p := fun u => u.taskid == task_id) as ha] at h
      injection h with h
      subst h
      exact ⟨eq_of_beq ha, [], as, rfl, by simp⟩
    · rw [findTask, List.find?_cons_of_neg (p := fun u => u.taskid == task_id) as ha] at h
      obtain ⟨hid, l1, l2, hsplit, hl1⟩ := ih h
      refine ⟨hid, a :: l1, l2, by rw [hsplit, List.cons_append], ?_⟩
      intro u hu
      rcases List.mem_cons.mp hu with rfl | hu2
      · intro hcontra
        exact ha (beq_iff_eq.mpr hcontra)
      · exact hl1 u hu2

theorem erase_of_ne_prefix {l1 l2 : List Task} {t : Task}
    (h : ∀ u ∈ l1, u ≠ t) : (l1 ++ t :: l2).erase t = l1 ++ l2 := by
  have hnotmem : t ∉ l1 := fun ht => h t ht rfl
  rw [List.erase_append_right _ hnotmem, List.erase_cons_head]

theorem delete_task_found (m : TaskManager) (task_id : Int) (t : Task)
    (hfind : findTask m.tasks task_id = some t)
    (hst : t.status = some TaskStatus.COMPLETED) :
    m.delete_task (some task_id) =
      (TaskManager.save_tasks { m with tasks := m.tasks.erase t },
       DeleteResult.deleted) := by
  have hne : m.tasks.isEmpty = false := by
    cases hts : m.tasks with
    | nil => rw [hts] at hfind; exact Option.noConfusion hfind
    | cons a as => rfl
  have hb : (t.status == some TaskStatus.COMPLETED) = true := beq_iff_eq.mpr hst
  simp [TaskManager.delete_task, hne, hfind, hb]

/-- C6: deleting a `Completed` task removes exactly the task the id
lookup found: the list splits as a prefix (holding no task with that
id), the found task, and a suffix, and the collection afterwards is the
prefix followed by the suffix — every other task kept, fields and
relative order untouched. -/
theorem delete_completed_removes_exactly_one (m : TaskManager) (task_id : Int) (t : Task)
    (hfind : findTask m.tasks task_id = some t)
    (hst : t.status = some TaskStatus.COMPLETED) :
    ∃ l1 l2 : List Task,
      m.tasks = l1 ++ t :: l2 ∧ (∀ u ∈ l1, u.taskid ≠ task_id) ∧
      (m.delete_task (some task_id)).1.tasks = l1 ++ l2 ∧
      (m.delete_task (some task_id)).2 = DeleteResult.deleted := by
  obtain ⟨hid, l1, l2, hsplit, hl1⟩ := findTask_split hfind
  have hdel := delete_task_found m task_id t hfind hst
  have hprefix : ∀ u ∈ l1, u ≠ t := by
    intro u hu hut
    refine hl1 u hu ?_
    rw [hut]
    exact hid
  refine ⟨l1, l2, hsplit, hl1, ?_, ?_⟩
  · rw [hdel]
    show m.tasks.erase t = l1 ++ l2
    rw [hsplit]
    exact erase_of_ne_prefix hprefix
  · rw [hdel]

/-- Witness for C6 at a concrete store: two tasks, the second Completed
with id 2; deleting id 2 leaves exactly the first task. -/
theorem delete_completed_removes_exactly_one_witness :
    ∃ l1 l2 : List Task,
      [⟨1, "a", "b", none⟩, (⟨2, "c", "d", some 2⟩ : Task)] = l1 ++ (⟨2, "c", "d", some 2⟩ : Task) :: l2
      ∧ (∀ u ∈ l1, u.taskid ≠ 2)
      ∧ (TaskManager.delete_task
            ⟨[⟨1, "a", "b", none⟩, ⟨2, "c", "d", some 2⟩], FileState.missing⟩ (some 2)).1.tasks = l1 ++ l2
      ∧ (TaskManager.delete_task
            ⟨[⟨1, "a", "b", none⟩, ⟨2, "c", "d", some 2⟩], FileState.missing⟩ (some 2)).2 = DeleteResult.deleted :=
  delete_completed_removes_exactly_one
    ⟨[⟨1, "a", "b", none⟩, ⟨2, "c", "d", some 2⟩], FileState.missing⟩ 2
    ⟨2, "c", "d", some 2⟩ (by decide) rfl

/-! ## Lemmas about `updateFirst` and the branches of `update_task` -/

theorem map_updateFirst {β : Type} (task_id : Int) (f : Task → Task) (g : Task → β)
    (hfg : ∀ u, g (f u) = g u) (l : List Task) :
    (updateFirst task_id f l).map g = l.map g := by
  induction l with
  | nil => rfl
  | cons t ts ih =>
    by_cases h : (t.taskid == task_id) = true
    · simp [updateFirst, h, hfg t]
    · simp [updateFirst, h, ih]

theorem getElem?_updateFirst (task_id : Int) (f : Task → Task) (l : List Task) (i : Nat) :
    (updateFirst task_id f l)[i]? = l[i]? ∨
      ∃ t, l[i]? = some t ∧ (t.taskid == task_id) = true ∧
        (updateFirst task_id f l)[i]? = some (f t) := by
  induction l generalizing i with
  | nil => exact Or.inl rfl
  | cons t ts ih =>
    by_cases h : (t.taskid == task_id) = true
    · cases i with
      | zero => exact Or.inr ⟨t, by simp, h, by simp [updateFirst, h]⟩
      | succ j => exact Or.inl (by simp [updateFirst, h])
    · cases i with
      | zero => exact Or.inl (by simp [updateFirst, h])
      | succ j =>
        rcases ih j with h2 | ⟨u, hu1, hu2, hu3⟩
        · exact Or.inl (by simp [updateFirst, h, h2])
        · exact Or.inr ⟨u, by simpa using hu1, hu2, by simp [updateFirst, h, hu3]⟩

theorem findTask_updateFirst (task_id : Int) (f : Task → Task)
    (hf : ∀ u, (f u).taskid = u.taskid) (l : List Task) :
    findTask (updateFirst task_id f l) task_id = (findTask l task_id).map f := by
  induction l with
  | nil => rfl
  | cons t ts ih =>
    by_cases h : (t.taskid == task_id) = true
    · have hft : ((f t).taskid == task_id) = true := by rw [hf t]; exact h
      rw [updateFirst, if_pos h, findTask, findTask,
        List.find?_cons_of_pos (p := fun u => u.taskid == task_id) ts hft,
        List.find?_cons_of_pos (p := fun u => u.taskid == task_id) ts h]
      rfl
    · rw [updateFirst, if_neg h, findTask, findTask,
        List.find?_cons_of_neg (p := fun u => u.taskid == task_id) (updateFirst task_id f ts) h,
        List.find?_cons_of_neg (p := fun u => u.taskid == task_id) ts h]
      exact ih

theorem map_applyFieldEdits {β : Type} (task_id : Int) (rn rd : String) (g : Task → β)
    (h1 : ∀ u, g { u with taskname := pystrip rn } = g u)
    (h2 : ∀ u, g { u with description := pystrip rd } = g u)
    (tasks : List Task) :
    (applyFieldEdits task_id rn rd tasks).map g = tasks.map g := by
  rw [applyFieldEdits]
  split_ifs with ha hb hb
  · rfl
  · rw [map_updateFirst task_id (fun u => { u with taskname := pystrip rn }) g h1]
  · rw [map_updateFirst task_id (fun u => { u with description := pystrip rd }) g h2]
  · rw [map_updateFirst task_id (fun u => { u with description := pystrip rd }) g h2,
      map_updateFirst task_id (fun u => { u with taskname := pystrip rn }) g h1]

theorem findTask_applyFieldEdits (task_id : Int) (rn rd : String) (tasks : List Task)
    (t0 : Task) (hfind : findTask tasks task_id = some t0) :
    findTask (applyFieldEdits task_id rn rd tasks) task_id =
      some { t0 with
        taskname := if pystrip rn = "" then t0.taskname else pystrip rn,
        description := if pystrip rd = "" then t0.description else pystrip rd } := by
  rw [applyFieldEdits]
  split_ifs with ha hb hb
  · exact hfind
  · rw [findTask_updateFirst task_id (fun u => { u with taskname := pystrip rn })
        (fun u => rfl), hfind]
    rfl
  · rw [findTask_updateFirst task_id (fun u => { u with description := pystrip rd })
        (fun u => rfl), hfind]
    rfl
  · rw [findTask_updateFirst task_id (fun u => { u with description := pystrip rd })
        (fun u => rfl),
      findTask_updateFirst task_id (fun u => { u with taskname := pystrip rn })
        (fun u => rfl), hfind]
    rfl

theorem update_task_empty (m : TaskManager) (ii : Option Int) (rn rd : String)
    (si : Option Int) (h : m.tasks = []) :
    m.update_task ii rn rd si = (m, UpdateResult.noTasks) := by
  simp [TaskManager.update_task, h]

theorem update_task_invalidId (m : TaskManager) (rn rd : String) (si : Option Int)
    (h : m.tasks ≠ []) :
    m.update_task none rn rd si = (m, UpdateResult.invalidId) := by
  have hne : m.tasks.isEmpty = false := by
    cases hts : m.tasks with
    | nil => exact absurd hts h
    | cons a as => rfl
  simp [TaskManager.update_task, hne]

theorem update_task_notFound (m : TaskManager) (task_id : Int) (rn rd : String)
    (si : Option Int) (h : findTask m.tasks task_id = none) (hne : m.tasks ≠ []) :
    m.update_task (some task_id) rn rd si = (m, UpdateResult.notFound) := by
  have hemp : m.tasks.isEmpty = false := by
    cases hts : m.tasks with
    | nil => exact absurd hts hne
    | cons a as => rfl
  simp [TaskManager.update_task, hemp, h]

theorem update_task_found (m : TaskManager) (task_id : Int) (t : Task) (rn rd : String)
    (si : Option Int) (hfind : findTask m.tasks task_id = some t) :
    m.update_task (some task_id) rn rd si =
      match si with
      | none => ({ m with tasks := applyFieldEdits task_id rn rd m.tasks },
                 UpdateResult.invalidStatusInput)
      | some n =>
        if (n == TaskStatus.PENDING || n == TaskStatus.IN_PROGRESS
            || n == TaskStatus.COMPLETED) = true then
          (TaskManager.save_tasks { m with tasks := (updateFirst task_id
              (fun u => { u with status := some n })
              (applyFieldEdits task_id rn rd m.tasks)) },
           UpdateResult.updated)
        else ({ m with tasks := applyFieldEdits task_id rn rd m.tasks },
              UpdateResult.invalidStatusCode) := by
  have hemp : m.tasks.isEmpty = false := by
    cases hts : m.tasks with
    | nil => rw [hts] at hfind; exact Option.noConfusion hfind
    | cons a as => rfl
  cases si with
  | none =>
    simp only [TaskManager.update_task, hemp, Bool.false_eq_true, if_false, hfind]
    rfl
  | some n =>
    simp only [TaskManager.update_task, hemp, Bool.false_eq_true, if_false, hfind]
    by_cases hc : (n == TaskStatus.PENDING || n == TaskStatus.IN_PROGRESS
        || n == TaskStatus.COMPLETED) = true
    · rw [if_pos hc, if_pos hc]
      exact rfl
    · rw [if_neg hc, if_neg hc]
      exact rfl

theorem update_task_found_none (m : TaskManager) (task_id : Int) (t : Task) (rn rd : String)
    (hfind : findTask m.tasks task_id = some t) :
    m.update_task (some task_id) rn rd none =
      ({ m with tasks := applyFieldEdits task_id rn rd m.tasks },
       UpdateResult.invalidStatusInput) :=
  update_task_found m task_id t rn rd none hfind

theorem status_code_beq (n : Int) :
    (n == TaskStatus.PENDING || n == TaskStatus.IN_PROGRESS
      || n == TaskStatus.COMPLETED) = true ↔ (n = 0 ∨ n = 1 ∨ n = 2) := by
  simp [TaskStatus.PENDING, TaskStatus.IN_PROGRESS, TaskStatus.COMPLETED,
    Bool.or_eq_true, beq_iff_eq, or_assoc]

theorem update_task_found_valid (m : TaskManager) (task_id : Int) (t : Task) (rn rd : String)
    (n : Int) (hfind : findTask m.tasks task_id = some t)
    (hc : (n == TaskStatus.PENDING || n == TaskStatus.IN_PROGRESS
      || n == TaskStatus.COMPLETED) = true) :
    m.update_task (some task_id) rn rd (some n) =
      (TaskManager.save_tasks { m with tasks := (updateFirst task_id
          (fun u => { u with status := some n })
          (applyFieldEdits task_id rn rd m.tasks)) },
       UpdateResult.updated) := by
  rw [update_task_found m task_id t rn rd (some n) hfind]
  exact if_pos hc

theorem update_task_found_invalid (m : TaskManager) (task_id : Int) (t : Task) (rn rd : String)
    (n : Int) (hfind : findTask m.tasks task_id = some t)
    (hc : (n == TaskStatus.PENDING || n == TaskStatus.IN_PROGRESS
      || n == TaskStatus.COMPLETED) = false) :
    m.update_task (some task_id) rn rd (some n) =
      ({ m with tasks := applyFieldEdits task_id rn rd m.tasks },
       UpdateResult.invalidStatusCode) := by
  rw [update_task_found m task_id t rn rd (some n) hfind]
  exact if_neg (by rw [hc]; exact Bool.false_ne_true)

theorem update_task_tasks_char (m : TaskManager) (ii : Option Int) (rn rd : String)
    (si : Option Int) :
    (m.update_task ii rn rd si).1.tasks = m.tasks ∨
    ∃ task_id t, ii = some task_id ∧ findTask m.tasks task_id = some t ∧
      ((m.update_task ii rn rd si).1.tasks = applyFieldEdits task_id rn rd m.tasks ∨
       ∃ n, si = some n ∧ (n = 0 ∨ n = 1 ∨ n = 2) ∧
         (m.update_task ii rn rd si).1.tasks =
           updateFirst task_id (fun u => { u with status := some n })
             (applyFieldEdits task_id rn rd m.tasks)) := by
  by_cases hemp : m.tasks = []
  · rw [update_task_empty m ii rn rd si hemp]
    exact Or.inl rfl
  · cases ii with
    | none =>
      rw [update_task_invalidId m rn rd si hemp]
      exact Or.inl rfl
    | some task_id =>
      cases hfind : findTask m.tasks task_id with
      | none =>
        rw [update_task_notFound m task_id rn rd si hfind hemp]
        exact Or.inl rfl
      | some t =>
        cases si with
        | none =>
          rw [update_task_found_none m task_id t rn rd hfind]
          exact Or.inr ⟨task_id, t, rfl, hfind, Or.inl rfl⟩
        | some n =>
          by_cases hv : n = 0 ∨ n = 1 ∨ n = 2
          · rw [update_task_found_valid m task_id t rn rd n hfind ((status_code_beq n).mpr hv)]
            exact Or.inr ⟨task_id, t, rfl, hfind, Or.inr ⟨n, rfl, hv, rfl⟩⟩
          · have hc : (n == TaskStatus.PENDING || n == TaskStatus.IN_PROGRESS
                || n == TaskStatus.COMPLETED) = false :=
              Bool.eq_false_iff.mpr (fun hcontra => hv ((status_code_beq n).mp hcontra))
            rw [update_task_found_invalid m task_id t rn rd n hfind hc]
            exact Or.inr ⟨task_id, t, rfl, hfind, Or.inl rfl⟩

theorem applyFieldEdits_ids (task_id : Int) (rn rd : String) (tasks : List Task) :
    (applyFieldEdits task_id rn rd tasks).map Task.taskid = tasks.map Task.taskid :=
  map_applyFieldEdits task_id rn rd Task.taskid (fun u => rfl) (fun u => rfl) tasks

theorem applyFieldEdits_statuses (task_id : Int) (rn rd : String) (tasks : List Task) :
    (applyFieldEdits task_id rn rd tasks).map Task.status = tasks.map Task.status :=
  map_applyFieldEdits task_id rn rd Task.status (fun u => rfl) (fun u => rfl) tasks

theorem applyFieldEdits_name_omitted (task_id : Int) (rn rd : String)
    (h : pystrip rn = "") (tasks : List Task) :
    (applyFieldEdits task_id rn rd tasks).map Task.taskname = tasks.map Task.taskname := by
  rw [applyFieldEdits]
  split_ifs with ha
  · rfl
  · rw [map_updateFirst task_id (fun u => { u with description := pystrip rd })
      Task.taskname (fun u => rfl)]

theorem applyFieldEdits_desc_omitted (task_id : Int) (rn rd : String)
    (h : pystrip rd = "") (tasks : List Task) :
    (applyFieldEdits task_id rn rd tasks).map Task.description = tasks.map Task.description := by
  rw [applyFieldEdits]
  split_ifs with ha
  · rfl
  · rw [map_updateFirst task_id (fun u => { u with taskname := pystrip rn })
      Task.description (fun u => rfl)]

theorem update_task_ids (m : TaskManager) (ii : Option Int) (rn rd : String) (si : Option Int) :
    (m.update_task ii rn rd si).1.tasks.map Task.taskid = m.tasks.map Task.taskid := by
  rcases update_task_tasks_char m ii rn rd si with hc |
    ⟨task_id, t, hii, hfind, hc | ⟨n, hsi, hv, hc⟩⟩
  · rw [hc]
  · rw [hc, applyFieldEdits_ids]
  · rw [hc, map_updateFirst task_id (fun u => { u with status := some n })
      Task.taskid (fun u => rfl), applyFieldEdits_ids]

theorem update_task_names_omitted (m : TaskManager) (ii : Option Int) (rn rd : String)
    (si : Option Int) (h : pystrip rn = "") :
    (m.update_task ii rn rd si).1.tasks.map Task.taskname = m.tasks.map Task.taskname := by
  rcases update_task_tasks_char m ii rn rd si with hc |
    ⟨task_id, t, hii, hfind, hc | ⟨n, hsi, hv, hc⟩⟩
  · rw [hc]
  · rw [hc, applyFieldEdits_name_omitted task_id rn rd h]
  · rw [hc, map_updateFirst task_id (fun u => { u with status := some n })
      Task.taskname (fun u => rfl), applyFieldEdits_name_omitted task_id rn rd h]

theorem update_task_descs_omitted (m : TaskManager) (ii : Option Int) (rn rd : String)
    (si : Option Int) (h : pystrip rd = "") :
    (m.update_task ii rn rd si).1.tasks.map Task.description = m.tasks.map Task.description := by
  rcases update_task_tasks_char m ii rn rd si with hc |
    ⟨task_id, t, hii, hfind, hc | ⟨n, hsi, hv, hc⟩⟩
  · rw [hc]
  · rw [hc, applyFieldEdits_desc_omitted task_id rn rd h]
  · rw [hc, map_updateFirst task_id (fun u => { u with status := some n })
      Task.description (fun u => rfl), applyFieldEdits_desc_omitted task_id rn rd h]

theorem update_task_statuses_unchanged (m : TaskManager) (ii : Option Int) (rn rd : String)
    (si : Option Int) (h : ∀ n, si = some n → ¬(n = 0 ∨ n = 1 ∨ n = 2)) :
    (m.update_task ii rn rd si).1.tasks.map Task.status = m.tasks.map Task.status := by
  rcases update_task_tasks_char m ii rn rd si with hc |
    ⟨task_id, t, hii, hfind, hc | ⟨n, hsi, hv, hc⟩⟩
  · rw [hc]
  · rw [hc, applyFieldEdits_statuses]
  · exact absurd hv (h n hsi)

theorem update_task_applies_fields (m : TaskManager) (task_id : Int) (t0 : Task)
    (rn rd : String) (si : Option Int)
    (hfind : findTask m.tasks task_id = some t0) :
    ∃ t1, findTask (m.update_task (some task_id) rn rd si).1.tasks task_id = some t1 ∧
      t1.taskid = t0.taskid ∧
      t1.taskname = (if pystrip rn = "" then t0.taskname else pystrip rn) ∧
      t1.description = (if pystrip rd = "" then t0.description else pystrip rd) ∧
      t1.status = (match si with
        | none => t0.status
        | some n => if n = 0 ∨ n = 1 ∨ n = 2 then some n else t0.status) := by
  cases si with
  | none =>
    rw [update_task_found_none m task_id t0 rn rd hfind]
    exact ⟨{ t0 with
        taskname := if pystrip rn = "" then t0.taskname else pystrip rn,
        description := if pystrip rd = "" then t0.description else pystrip rd },
      findTask_applyFieldEdits task_id rn rd m.tasks t0 hfind, rfl, rfl, rfl, rfl⟩
  | some n =>
    by_cases hv : n = 0 ∨ n = 1 ∨ n = 2
    · rw [update_task_found_valid m task_id t0 rn rd n hfind ((status_code_beq n).mpr hv)]
      refine ⟨{ t0 with
          taskname := if pystrip rn = "" then t0.taskname else pystrip rn,
          description := if pystrip rd = "" then t0.description else pystrip rd,
          status := some n }, ?_, rfl, rfl, rfl, ?_⟩
      · show findTask (updateFirst task_id (fun u => { u with status := some n })
            (applyFieldEdits task_id rn rd m.tasks)) task_id = _
        rw [findTask_updateFirst task_id (fun u => { u with status := some n })
            (fun u => rfl),
          findTask_applyFieldEdits task_id rn rd m.tasks t0 hfind]
        rfl
      · exact (if_pos hv).symm
    · have hc : (n == TaskStatus.PENDING || n == TaskStatus.IN_PROGRESS
          || n == TaskStatus.COMPLETED) = false :=
        Bool.eq_false_iff.mpr (fun hcontra => hv ((status_code_beq n).mp hcontra))
      rw [update_task_found_invalid m task_id t0 rn rd n hfind hc]
      exact ⟨{ t0 with
          taskname := if pystrip rn = "" then t0.taskname else pystrip rn,
          description := if pystrip rd = "" then t0.description else pystrip rd },
        findTask_applyFieldEdits task_id rn rd m.tasks t0 hfind, rfl, rfl, rfl,
        (if_neg hv).symm⟩

theorem update_task_status_entries (m : TaskManager) (ii : Option Int) (rn rd : String)
    (si : Option Int) (i : Nat) (t0 t1 : Task)
    (h0 : m.tasks[i]? = some t0)
    (h1 : (m.update_task ii rn rd si).1.tasks[i]? = some t1) :
    t1.status = t0.status ∨
      ∃ n, si = some n ∧ (n = 0 ∨ n = 1 ∨ n = 2) ∧ t1.status = some n := by
  rcases update_task_tasks_char m ii rn rd si with hc |
    ⟨task_id, t, hii, hfind, hc | ⟨n, hsi, hv, hc⟩⟩
  · rw [hc, h0] at h1
    injection h1 with h1
    rw [← h1]
    exact Or.inl rfl
  · left
    have hget := congrArg (fun l => l[i]?) (applyFieldEdits_statuses task_id rn rd m.tasks)
    simp only [List.getElem?_map] at hget
    rw [hc] at h1
    rw [h1, h0] at hget
    simp only [Option.map_some'] at hget
    injection hget
  · rw [hc] at h1
    rcases getElem?_updateFirst task_id (fun u => { u with status := some n })
        (applyFieldEdits task_id rn rd m.tasks) i with h2 | ⟨u, hu1, hu2, hu3⟩
    · left
      rw [h2] at h1
      have hget := congrArg (fun l => l[i]?) (applyFieldEdits_statuses task_id rn rd m.tasks)
      simp only [List.getElem?_map] at hget
      rw [h1, h0] at hget
      simp only [Option.map_some'] at hget
      injection hget
    · right
      rw [h1] at hu3
      injection hu3 with hu3
      exact ⟨n, hsi, hv, by rw [hu3]⟩

/-- C4 counterexample: updating task 1 with the new name "abc!" — which
`validate_name` rejects — still replaces the name: `update_task` performs
no validation on the supplied name. -/
theorem update_accepts_invalid_name_cex :
    (TaskManager.update_task ⟨[⟨1, "Task", "desc", none⟩], FileState.missing⟩
        (some 1) "abc!" "" none).1.tasks = [⟨1, "abc!", "desc", none⟩]
    ∧ TaskValidator.validate_name "abc!" = none :=
  ⟨by decide, rfl⟩

/-- C4 amended: `update_task` never changes ids; an omitted (empty after
stripping) name or description leaves that field unchanged on every
task; a supplied status outside the three codes is rejected as an
invalid status code and changes no status; the first task with the given
id gets each supplied field replaced by its stripped raw value — with no
validation — and its status replaced only by a supplied valid code; and
no task's status is ever reset to unassigned (`none`). -/
theorem update_task_field_semantics (m : TaskManager) (task_id_input : Option Int)
    (raw_taskname raw_description : String) (status_input : Option Int) :
    ((m.update_task task_id_input raw_taskname raw_description status_input).1.tasks.map
        Task.taskid = m.tasks.map Task.taskid)
    ∧ (pystrip raw_taskname = "" →
        (m.update_task task_id_input raw_taskname raw_description status_input).1.tasks.map
          Task.taskname = m.tasks.map Task.taskname)
    ∧ (pystrip raw_description = "" →
        (m.update_task task_id_input raw_taskname raw_description status_input).1.tasks.map
          Task.description = m.tasks.map Task.description)
    ∧ (∀ n, status_input = some n → ¬(n = 0 ∨ n = 1 ∨ n = 2) →
        ((m.update_task task_id_input raw_taskname raw_description status_input).1.tasks.map
            Task.status = m.tasks.map Task.status
          ∧ ∀ task_id t, task_id_input = some task_id →
              findTask m.tasks task_id = some t →
              (m.update_task task_id_input raw_taskname raw_description status_input).2 =
                UpdateResult.invalidStatusCode))
    ∧ (∀ task_id t0, task_id_input = some task_id → findTask m.tasks task_id = some t0 →
        ∃ t1, findTask
            (m.update_task task_id_input raw_taskname raw_description status_input).1.tasks
            task_id = some t1 ∧
          t1.taskid = t0.taskid ∧
          t1.taskname =
            (if pystrip raw_taskname = "" then t0.taskname else pystrip raw_taskname) ∧
          t1.description =
            (if pystrip raw_description = "" then t0.description
             else pystrip raw_description) ∧
          t1.status = (match status_input with
            | none => t0.status
            | some n => if n = 0 ∨ n = 1 ∨ n = 2 then some n else t0.status))
    ∧ (∀ i : Nat, ∀ t0 t1 : Task, m.tasks[i]? = some t0 →
        (m.update_task task_id_input raw_taskname raw_description status_input).1.tasks[i]? =
          some t1 →
        t0.status ≠ none → t1.status ≠ none) := by
  refine ⟨update_task_ids m task_id_input raw_taskname raw_description status_input,
    update_task_names_omitted m task_id_input raw_taskname raw_description status_input,
    update_task_descs_omitted m task_id_input raw_taskname raw_description status_input,
    ?_, ?_, ?_⟩
  · intro n hsi hv
    constructor
    · refine update_task_statuses_unchanged m task_id_input raw_taskname raw_description
        status_input ?_
      intro n2 hn2
      rw [hsi] at hn2
      injection hn2 with hn2
      rw [← hn2]
      exact hv
    · intro task_id t htid hfind
      have hc : (n == TaskStatus.PENDING || n == TaskStatus.IN_PROGRESS
          || n == TaskStatus.COMPLETED) = false :=
        Bool.eq_false_iff.mpr (fun hcontra => hv ((status_code_beq n).mp hcontra))
      rw [htid, hsi, update_task_found_invalid m task_id t raw_taskname raw_description
        n hfind hc]
  · intro task_id t0 htid hfind
    rw [htid]
    exact update_task_applies_fields m task_id t0 raw_taskname raw_description
      status_input hfind
  · intro i t0 t1 h0 h1 hne0
    rcases update_task_status_entries m task_id_input raw_taskname raw_description
        status_input i t0 t1 h0 h1 with h | ⟨n, hsi, hv, hs⟩
    · rw [h]
      exact hne0
    · rw [hs]
      exact Option.noConfusion

/-- C5 counterexample: updating only the name of task 1 (the status reply
fails to parse) changes the collection in memory — an accepted name
change — but the backing file is never written during the call. -/
theorem update_name_change_not_persisted_cex :
    (TaskManager.update_task ⟨[⟨1, "Task", "desc", none⟩], FileState.missing⟩
        (some 1) "NewName" "" none).1.tasks = [⟨1, "NewName", "desc", none⟩]
    ∧ ([(⟨1, "NewName", "desc", none⟩ : Task)] ≠ [⟨1, "Task", "desc", none⟩])
    ∧ (TaskManager.update_task ⟨[⟨1, "Task", "desc", none⟩], FileState.missing⟩
        (some 1) "NewName" "" none).1.file = FileState.missing :=
  ⟨by decide, by decide, rfl⟩

/-- C5 amended: `update_task` persists exactly when a valid status code
(0, 1 or 2) is supplied for an existing task: in that case the file
afterwards holds the whole updated collection; in every other outcome —
including one where a new name or description was accepted and written
into the collection in memory — the file is left exactly as it was. -/
theorem update_persists_iff_status_accepted (m : TaskManager) (task_id_input : Option Int)
    (raw_taskname raw_description : String) (status_input : Option Int) :
    ((m.update_task task_id_input raw_taskname raw_description status_input).2 =
        UpdateResult.updated ↔
      m.tasks ≠ [] ∧ ∃ task_id, task_id_input = some task_id ∧
        (findTask m.tasks task_id).isSome ∧
        ∃ n, status_input = some n ∧ (n = 0 ∨ n = 1 ∨ n = 2))
    ∧ ((m.update_task task_id_input raw_taskname raw_description status_input).2 =
          UpdateResult.updated →
        (m.update_task task_id_input raw_taskname raw_description status_input).1.file =
          FileHandler.save_tasks
            ((m.update_task task_id_input raw_taskname raw_description
              status_input).1.tasks.map encodeTask))
    ∧ ((m.update_task task_id_input raw_taskname raw_description status_input).2 ≠
          UpdateResult.updated →
        (m.update_task task_id_input raw_taskname raw_description status_input).1.file =
          m.file) := by
  by_cases hemp : m.tasks = []
  · rw [update_task_empty m task_id_input raw_taskname raw_description status_input hemp]
    refine ⟨?_, by simp, fun h => rfl⟩
    constructor
    · intro h
      simp at h
    · rintro ⟨hne, -⟩
      exact absurd hemp hne
  · cases task_id_input with
    | none =>
      rw [update_task_invalidId m raw_taskname raw_description status_input hemp]
      refine ⟨?_, by simp, fun h => rfl⟩
      constructor
      · intro h
        simp at h
      · rintro ⟨-, task_id, htid, -⟩
        exact Option.noConfusion htid
    | some task_id =>
      cases hfind : findTask m.tasks task_id with
      | none =>
        rw [update_task_notFound m task_id raw_taskname raw_description status_input
          hfind hemp]
        refine ⟨?_, by simp, fun h => rfl⟩
        constructor
        · intro h
          simp at h
        · rintro ⟨-, task_id2, htid, hsome, -⟩
          injection htid with htid
          rw [← htid, hfind] at hsome
          simp at hsome
      | some t =>
        cases status_input with
        | none =>
          rw [update_task_found_none m task_id t raw_taskname raw_description hfind]
          refine ⟨?_, by simp, fun h => rfl⟩
          constructor
          · intro h
            simp at h
          · rintro ⟨-, -, -, -, n, hsn, -⟩
            exact Option.noConfusion hsn
        | some n =>
          by_cases hv : n = 0 ∨ n = 1 ∨ n = 2
          · rw [update_task_found_valid m task_id t raw_taskname raw_description n hfind
              ((status_code_beq n).mpr hv)]
            refine ⟨?_, fun h => rfl, fun h => absurd rfl h⟩
            constructor
            · intro h
              exact ⟨hemp, task_id, rfl, by rw [hfind]; rfl, n, rfl, hv⟩
            · intro h
              rfl
          · have hc : (n == TaskStatus.PENDING || n == TaskStatus.IN_PROGRESS
                || n == TaskStatus.COMPLETED) = false :=
              Bool.eq_false_iff.mpr (fun hcontra => hv ((status_code_beq n).mp hcontra))
            rw [update_task_found_invalid m task_id t raw_taskname raw_description n
              hfind hc]
            refine ⟨?_, by simp, fun h => rfl⟩
            constructor
            · intro h
              simp at h
            · rintro ⟨-, task_id2, htid, -, n2, hsn, hv2⟩
              injection hsn with hsn
              rw [← hsn] at hv2
              exact absurd hv2 hv

end Todo
